import Mathlib

/-!
Shallow embedding of the i18n translation-lookup header
`include/i18n/i18n.hpp`: the JSON value model, dot-separated path
resolution, the three constructors, and the `get` / `t` lookup chain,
together with theorems checking the specification's claims against it.
-/

/-- Model of an nlohmann::json value. Objects are represented by their
field list in map iteration order (nlohmann's object type is a std::map,
so keys are unique and sorted); numbers are collapsed to integers, which
suffices for the documents the claims quantify over. -/
inductive Json where
  | null
  | bool (b : Bool)
  | num (n : Int)
  | str (s : String)
  | arr (elems : List Json)
  | obj (fields : List (String × Json))

/-- std::map<std::string, json>::find over the field list. -/
def lookupField : List (String × Json) → String → Option Json
  | [], _ => none
  | (k, v) :: rest, key => if k = key then some v else lookupField rest key

/-- json::is_object(). -/
def Json.is_object : Json → Bool
  | .obj _ => true
  | _ => false

/-- json::is_null(). -/
def Json.is_null : Json → Bool
  | .null => true
  | _ => false

/-- json::empty(): true for null and for an empty array or object,
false for scalar values. -/
def Json.emptyVal : Json → Bool
  | .null => true
  | .arr es => es.isEmpty
  | .obj fs => fs.isEmpty
  | _ => false

/-- json::contains(key): false on every non-object value. -/
def containsKey : Json → String → Bool
  | .obj fs, key => (lookupField fs key).isSome
  | _, _ => false

/-- The value read through operator[](key) when the key is known to be
present; every such read in the source is guarded by a contains check. -/
def atKey : Json → String → Json
  | .obj fs, key => (lookupField fs key).getD Json.null
  | _, _ => Json.null

/-- std::map insertion keeps the field list sorted by key. -/
def insertKeySorted : List (String × Json) → String → List (String × Json)
  | [], key => [(key, Json.null)]
  | (k, v) :: rest, key =>
    if key < k then (key, Json.null) :: (k, v) :: rest
    else (k, v) :: insertKeySorted rest key

/-- Non-const operator[](key): a null value becomes an empty object
first; on an object a missing key is inserted with a null value; any
other type throws (none). Returns the element and the updated value. -/
def idxMut : Json → String → Option (Json × Json)
  | .null, key => some (Json.null, .obj [(key, Json.null)])
  | .obj fs, key =>
    match lookupField fs key with
    | some v => some (v, .obj fs)
    | none => some (Json.null, .obj (insertKeySorted fs key))
  | _, _ => none

/-- One pass of std::getline(ss, segment, '.') over the remaining
characters, with the characters read so far (reversed) in acc. At end
of input the pending segment is produced; after a delimiter, getline is
attempted again but fails immediately on an exhausted stream, so a
trailing delimiter yields no trailing empty segment. -/
def segsAux : List Char → List Char → List String
  | acc, [] => [String.mk acc.reverse]
  | acc, c :: cs =>
    if c = '.' then
      String.mk acc.reverse ::
        (match cs with
          | [] => []
          | c2 :: cs2 => segsAux [] (c2 :: cs2))
    else segsAux (c :: acc) cs

/-- Splitting a path exactly as the while(std::getline(ss, segment, '.'))
loop does; the empty path yields no segments at all. -/
def cppSegments (s : String) : List String :=
  match s.data with
  | [] => []
  | c :: cs => segsAux [] (c :: cs)

/-- The I18n::resolvePath walk over an already-split segment list: stop
with nullptr (none) as soon as the current node is not an object or
lacks the segment key. -/
def walkSegs : Json → List String → Option Json
  | current, [] => some current
  | current, segment :: rest =>
    if !current.is_object || !(containsKey current segment) then none
    else walkSegs (atKey current segment) rest

/-- I18n::resolvePath: navigate a dot-separated path through a value;
none models the nullptr result, which is distinct from reaching a value
that is itself null. -/
def resolvePath (source : Json) (path : String) : Option Json :=
  walkSegs source (cppSegments path)

/-- The I18n object's two data members. -/
structure I18n where
  translations : Json
  locales : List String

/-- I18n(): default construction leaves translations as json null and
the locale list empty. -/
def defaultI18n : I18n := ⟨Json.null, []⟩

/-- Construction failures, classified as in the spec; each carries the
runtime error message built in the source (for the parse error, the
appended parser message is external and omitted). -/
inductive ConstructError where
  | ioError (msg : String)
  | parseError (msg : String)
  | invalidDocument (msg : String)
deriving DecidableEq

/-- Keys produced by iterating j.items(): field keys for objects in
stored order, decimal index strings for arrays, no iterations for null,
and a single empty key for the other scalar types. -/
def itemKeys : Json → List String
  | .obj fs => fs.map Prod.fst
  | .arr es => (List.range es.length).map (fun i => toString i)
  | .null => []
  | _ => [""]

/-- I18n(const nlohmann::json&): reject non-objects, then empty values,
then store the document and record its iteration keys as locales. -/
def fromJson (json : Json) : Except ConstructError I18n :=
  if !json.is_object then
    .error (.invalidDocument "JSON must be an object")
  else if json.emptyVal then
    .error (.invalidDocument "JSON object is empty")
  else
    .ok ⟨json, itemKeys json⟩

/-- I18n(const std::string& filePath). Opening the file and its raw
bytes are external and enter as the openable flag and the content
string; the two emptiness checks in the source (peek at eof, then
tellg after seeking to the end) both test for an empty stream. The
size probe leaves the stream's get pointer at the end and nothing
rewinds it before parse(ifs), so the parser reads an exhausted stream
and throws parse_error 101 for every nonempty file regardless of its
content: the success path after parse, which would store the document
and record its iteration keys, is unreachable, and construction from
an openable nonempty file always fails with ParseError. -/
def fromFile (filePath : String) (openable : Bool) (content : String) :
    Except ConstructError I18n :=
  if !openable then
    .error (.ioError ("Could not open file: " ++ filePath))
  else if content = "" then
    .error (.ioError ("File is empty: " ++ filePath))
  else
    .error (.parseError ("Invalid JSON in file: " ++ filePath))

/-- The for loop of I18n::isContentAvailableInOtherLocales, threading the
translations member through the non-const operator[] reads; an error
carries the member's value when the exception escapes. -/
def availLoop (path currentLang : String) : Json → List String → Except Json (Bool × Json)
  | tr, [] => .ok (false, tr)
  | tr, locale :: rest =>
    if locale != currentLang then
      match idxMut tr locale with
      | none => .error tr
      | some (sub, tr2) =>
        match resolvePath sub path with
        | some node => if node.is_null then availLoop path currentLang tr2 rest else .ok (true, tr2)
        | none => availLoop path currentLang tr2 rest
    else availLoop path currentLang tr rest

/-- First step of I18n::get: node is left as nullptr unless translations
contains the requested language, in which case the path is resolved in
translations[langCode]. -/
def primaryStep (tr : Json) (path langCode : String) : Except Json (Option Json × Json) :=
  if containsKey tr langCode then
    match idxMut tr langCode with
    | none => .error tr
    | some (sub, tr2) => .ok (resolvePath sub path, tr2)
  else .ok (none, tr)

/-- Fallback step of I18n::get: resolve in translations["en"] only when
the requested language is not "en" and "en" is a top-level key. -/
def fallbackStep (tr : Json) (path langCode : String) : Except Json (Option Json × Json) :=
  if langCode != "en" && containsKey tr "en" then
    match idxMut tr "en" with
    | none => .error tr
    | some (sub, tr2) => .ok (resolvePath sub path, tr2)
  else .ok (none, tr)

/-- What a call to I18n::get produces when no exception escapes: the
returned value, the translations member afterwards, and whether the
advisory warning line was written to stderr. -/
structure GetOutcome (T : Type) where
  value : T
  translations : Json
  warned : Bool

/-- Sequencing of one statement of get that may throw: an escaping
exception propagates, carrying the member state at the throw point. -/
def exceptStep {A B : Type} (e : Except Json (A × Json)) (k : A → Json → Except Json B) :
    Except Json B :=
  match e with
  | .error tr => .error tr
  | .ok (a, tr) => k a tr

theorem exceptStep_ok {A B : Type} (a : A) (tr : Json) (k : A → Json → Except Json B) :
    exceptStep (.ok (a, tr)) k = k a tr := rfl

theorem exceptStep_error {A B : Type} (tr : Json) (k : A → Json → Except Json B) :
    exceptStep (.error tr) k = .error tr := rfl

/-- I18n::get<T>(path, langCode, defaultValue). The template conversion
target->get<T>() together with its try/catch on json exceptions enters
as conv: none models a conversion failure. An error result carries the
translations member at the point a json exception escaped the call. -/
def getRun {T : Type} (s : I18n) (conv : Json → Option T) (path langCode : String)
    (defaultValue : T) : Except Json (GetOutcome T) :=
  exceptStep (primaryStep s.translations path langCode) fun node tr1 =>
  exceptStep (availLoop path langCode tr1 s.locales) fun avail tr2 =>
  exceptStep (fallbackStep tr2 path langCode) fun fallback tr3 =>
    let target : Option Json :=
      match node with
      | some n => if n.is_null then fallback else node
      | none => fallback
    match target with
    | none => .ok ⟨defaultValue, tr3, !avail⟩
    | some tgt =>
      if tgt.is_null then .ok ⟨defaultValue, tr3, !avail⟩
      else
        match conv tgt with
        | some v => .ok ⟨v, tr3, !avail⟩
        | none => .ok ⟨defaultValue, tr3, !avail⟩

/-- nlohmann get<std::string>(): succeeds exactly on string values,
throws a type error otherwise. -/
def convString : Json → Option String
  | .str s => some s
  | _ => none

/-- nlohmann get for a signed integer type: numbers (and booleans, which
nlohmann converts arithmetically) succeed, everything else throws. -/
def convInt : Json → Option Int
  | .num n => some n
  | .bool b => some (if b then 1 else 0)
  | _ => none

/-- I18n::t instantiated at T = std::string: an empty default is
replaced by the sentinel before delegating to get. -/
def tRunStr (s : I18n) (path langCode defaultValue : String) : Except Json (GetOutcome String) :=
  let d := if defaultValue = "" then "Content not found" else defaultValue
  getRun s convString path langCode d

/-- Resolution succeeded and reached a non-null value. -/
def resolvedNonNull : Option Json → Bool
  | none => false
  | some n => !n.is_null

/-- Spec wording: the value resolved in the requested locale's tree,
available only when that locale is a top-level key. -/
def primaryNode (s : I18n) (path lang : String) : Option Json :=
  if containsKey s.translations lang then resolvePath (atKey s.translations lang) path
  else none

/-- Spec wording: the value resolved in the "en" tree, consulted only
when the requested locale is not "en" and "en" is a top-level key. -/
def fallbackNode (s : I18n) (path lang : String) : Option Json :=
  if lang != "en" && containsKey s.translations "en" then
    resolvePath (atKey s.translations "en") path
  else none

/-- Spec wording of the selection rule: use primary if it resolved and
is non-null; otherwise fallback if it resolved and is non-null;
otherwise nothing (the caller default). -/
def chainChoice (primary fallback : Option Json) : Option Json :=
  if resolvedNonNull primary then primary
  else if resolvedNonNull fallback then fallback
  else none

/-- Spec wording of the whole lookup: the selected node converted to T,
with the caller default when nothing was selected or conversion fails. -/
def getSpecValue {T : Type} (s : I18n) (conv : Json → Option T) (path lang : String)
    (d : T) : T :=
  match chainChoice (primaryNode s path lang) (fallbackNode s path lang) with
  | none => d
  | some n => (conv n).getD d

/-- Spec wording of the availability scan: some locale other than the
requested one has a non-null value resolvable at the path. -/
def otherAny (s : I18n) (path lang : String) : Bool :=
  s.locales.any fun l => l != lang && resolvedNonNull (resolvePath (atKey s.translations l) path)

/-- Spec wording of the resolution walk: at each step, if the current
node is not a mapping or does not contain the segment as a key, return
not-found; otherwise continue into the child. -/
def specWalk : Json → List String → Option Json
  | t, [] => some t
  | t, seg :: rest =>
    match t with
    | .obj fs =>
      match lookupField fs seg with
      | some child => specWalk child rest
      | none => none
    | _ => none

/-- Stores whose locale list matches the top-level iteration keys of the
translations member and whose translations member is an object or null.
Every store the in-memory constructor builds satisfies this, as does
every file-built or default-built store whose document is an object or
null; file-built stores around non-object documents are the divergence
recorded at claim C3. -/
def ValidStore (s : I18n) : Prop :=
  s.locales = itemKeys s.translations ∧
    (s.translations.is_object = true ∨ s.translations.is_null = true)

instance : DecidablePred ValidStore := fun s => by
  unfold ValidStore
  infer_instance

/-- Stores produced by one of the three constructors in the source; the
file case is vacuous since file construction never succeeds. -/
inductive Constructed : I18n → Prop where
  | ofDefault : Constructed defaultI18n
  | ofJson (j : Json) (s : I18n) : fromJson j = .ok s → Constructed s
  | ofFile (fp : String) (o : Bool) (c : String) (s : I18n) :
      fromFile fp o c = .ok s → Constructed s

/-- The two-locale document used in the repository's test program. -/
def demoDoc : Json :=
  Json.obj [("en", Json.obj [("greeting", Json.str "Hello")]),
            ("id", Json.obj [("greeting", Json.str "Halo")])]

/-- The store built from demoDoc. -/
def demoStore : I18n := ⟨demoDoc, ["en", "id"]⟩

/-- The bytes of a translations file holding the test document (braces
written as hex escapes). -/
def exampleFileContent : String :=
  "\x7b\"en\": \x7b\"greeting\": \"Hello\"\x7d, \"id\": \x7b\"greeting\": \"Halo\"\x7d\x7d"

example : cppSegments "" = [] := by decide
example : cppSegments "a.b" = ["a", "b"] := by decide
example : cppSegments "a." = ["a"] := by decide
example : cppSegments ".a" = ["", "a"] := by decide
example : cppSegments "a..b" = ["a", "", "b"] := by decide
example : resolvePath demoDoc "en.greeting" = some (Json.str "Hello") := by rfl
example : resolvePath demoDoc "en.missing" = none := by rfl
example : getRun demoStore convString "greeting" "id" "d" = .ok ⟨"Halo", demoDoc, false⟩ := by rfl
example : getRun demoStore convString "greeting" "fr" "d" = .ok ⟨"Hello", demoDoc, false⟩ := by rfl
example : getRun demoStore convString "missing.key" "en" "d" = .ok ⟨"d", demoDoc, true⟩ := by rfl
example : tRunStr demoStore "missing" "en" "" = .ok ⟨"Content not found", demoDoc, true⟩ := by rfl
example : ValidStore demoStore := by decide

theorem lookupField_isSome_of_mem (fs : List (String × Json)) (l : String)
    (h : l ∈ fs.map Prod.fst) : (lookupField fs l).isSome = true := by
  induction fs with
  | nil => simp at h
  | cons kv rest ih =>
    obtain ⟨k, v⟩ := kv
    simp only [List.map_cons, List.mem_cons] at h
    by_cases hk : k = l
    · simp [lookupField, hk]
    · rcases h with h | h
      · exact absurd h.symm hk
      · simp [lookupField, hk, ih h]

theorem idxMut_of_contains (tr : Json) (l : String) (h : containsKey tr l = true) :
    idxMut tr l = some (atKey tr l, tr) := by
  cases tr <;> simp [containsKey] at h
  next fs =>
    rcases hf : lookupField fs l with _ | v
    · rw [hf] at h; simp at h
    · simp [idxMut, atKey, hf]

theorem idxMut_stuck (tr : Json) (l : String) (ho : tr.is_object = false)
    (hn : tr.is_null = false) : idxMut tr l = none := by
  cases tr <;> simp_all [Json.is_object, Json.is_null, idxMut]

theorem primaryStep_eq (tr : Json) (path lang : String) :
    primaryStep tr path lang =
      .ok ((if containsKey tr lang then resolvePath (atKey tr lang) path else none), tr) := by
  unfold primaryStep
  by_cases h : containsKey tr lang = true
  · rw [idxMut_of_contains tr lang h]
    simp [h]
  · simp [h]

theorem fallbackStep_eq (tr : Json) (path lang : String) :
    fallbackStep tr path lang =
      .ok ((if lang != "en" && containsKey tr "en" then resolvePath (atKey tr "en") path
            else none), tr) := by
  unfold fallbackStep
  by_cases h : (lang != "en" && containsKey tr "en") = true
  · rw [h]
    rw [idxMut_of_contains tr "en" (by exact (Bool.and_eq_true _ _ ▸ h).2)]
    simp [h]
  · simp [h]

theorem availLoop_keys (path lang : String) (tr : Json) (L : List String)
    (h : ∀ l ∈ L, containsKey tr l = true) :
    availLoop path lang tr L =
      .ok (L.any (fun l => l != lang && resolvedNonNull (resolvePath (atKey tr l) path)), tr) := by
  induction L with
  | nil => simp [availLoop]
  | cons l rest ih =>
    have hl : containsKey tr l = true := h l (by simp)
    have hrest : ∀ x ∈ rest, containsKey tr x = true := fun x hx => h x (by simp [hx])
    unfold availLoop
    by_cases hlang : (l != lang) = true
    · rw [hlang]
      simp only [if_true]
      rw [idxMut_of_contains tr l hl]
      rcases hr : resolvePath (atKey tr l) path with _ | node
      · simp [ih hrest, hr, hlang, resolvedNonNull]
      · cases hnull : node.is_null
        · simp [hr, hnull, hlang, resolvedNonNull]
        · simp [hr, hnull, ih hrest, hlang, resolvedNonNull]
    · have hlf : (l != lang) = false := by simpa using hlang
      simp [hlf, ih hrest, resolvedNonNull]

theorem availLoop_stuck (path lang : String) (tr : Json) (L : List String)
    (ho : tr.is_object = false) (hn : tr.is_null = false) :
    availLoop path lang tr L = .error tr ∨ availLoop path lang tr L = .ok (false, tr) := by
  induction L with
  | nil => right; simp [availLoop]
  | cons l rest ih =>
    unfold availLoop
    by_cases hlang : (l != lang) = true
    · rw [hlang]
      simp only [if_true]
      rw [idxMut_stuck tr l ho hn]
      left; rfl
    · have hlf : (l != lang) = false := by simpa using hlang
      simp only [hlf, Bool.false_eq_true, if_false]
      exact ih

theorem getRun_steps {T : Type} (s : I18n) (conv : Json → Option T) (path lang : String)
    (d : T) (pn : Option Json) (av : Bool) (fn : Option Json)
    (h1 : primaryStep s.translations path lang = .ok (pn, s.translations))
    (h2 : availLoop path lang s.translations s.locales = .ok (av, s.translations))
    (h3 : fallbackStep s.translations path lang = .ok (fn, s.translations)) :
    getRun s conv path lang d =
      .ok ⟨(match chainChoice pn fn with
            | none => d
            | some n => (conv n).getD d), s.translations, !av⟩ := by
  unfold getRun
  simp only [h1, exceptStep_ok, h2, h3]
  rcases pn with _ | n
  · rcases fn with _ | m
    · simp [chainChoice, resolvedNonNull]
    · cases hm : m.is_null
      · cases hc : conv m <;> simp [chainChoice, resolvedNonNull, hm, hc]
      · simp [chainChoice, resolvedNonNull, hm]
  · cases hn : n.is_null
    · cases hc : conv n <;> simp [chainChoice, resolvedNonNull, hn, hc]
    · rcases fn with _ | m
      · simp [chainChoice, resolvedNonNull, hn]
      · cases hm : m.is_null
        · cases hc : conv m <;> simp [chainChoice, resolvedNonNull, hn, hm, hc]
        · simp [chainChoice, resolvedNonNull, hn, hm]

theorem availLoop_char (s : I18n) (path lang : String)
    (hl : s.locales = itemKeys s.translations)
    (hv : s.translations.is_object = true ∨ s.translations.is_null = true) :
    availLoop path lang s.translations s.locales = .ok (otherAny s path lang, s.translations) := by
  obtain ⟨tr, L⟩ := s
  simp only at hl hv ⊢
  rcases hv with ho | hn
  · cases tr with
    | obj fs =>
      have hkeys : ∀ l ∈ L, containsKey (Json.obj fs) l = true := by
        intro l hmem
        rw [hl] at hmem
        simp only [itemKeys] at hmem
        simpa [containsKey] using lookupField_isSome_of_mem fs l hmem
      rw [availLoop_keys path lang (Json.obj fs) L hkeys]
      simp [otherAny]
    | null => simp [Json.is_object] at ho
    | bool b => simp [Json.is_object] at ho
    | num n => simp [Json.is_object] at ho
    | str st => simp [Json.is_object] at ho
    | arr es => simp [Json.is_object] at ho
  · cases tr with
    | null =>
      simp only [itemKeys] at hl
      subst hl
      simp [availLoop, otherAny]
    | obj fs => simp [Json.is_null] at hn
    | bool b => simp [Json.is_null] at hn
    | num n => simp [Json.is_null] at hn
    | str st => simp [Json.is_null] at hn
    | arr es => simp [Json.is_null] at hn

theorem getRun_char {T : Type} (s : I18n) (conv : Json → Option T) (path lang : String)
    (d : T) (hv : ValidStore s) :
    getRun s conv path lang d =
      .ok ⟨getSpecValue s conv path lang d, s.translations, !otherAny s path lang⟩ := by
  obtain ⟨hl, hcase⟩ := hv
  have h1 := primaryStep_eq s.translations path lang
  have h3 := fallbackStep_eq s.translations path lang
  have h2 := availLoop_char s path lang hl hcase
  have hs := getRun_steps s conv path lang d _ _ _ h1 h2 h3
  rw [hs]
  simp only [getSpecValue, primaryNode, fallbackNode]

theorem containsKey_eq_false_of_not_object (tr : Json) (key : String)
    (ho : tr.is_object = false) : containsKey tr key = false := by
  cases tr <;> simp_all [Json.is_object, containsKey]

theorem getRun_stuck {T : Type} (s : I18n) (conv : Json → Option T) (path lang : String)
    (d : T) (ho : s.translations.is_object = false) (hn : s.translations.is_null = false) :
    getRun s conv path lang d = .error s.translations ∨
      getRun s conv path lang d = .ok ⟨d, s.translations, true⟩ := by
  have hck := containsKey_eq_false_of_not_object s.translations lang ho
  have hcke := containsKey_eq_false_of_not_object s.translations "en" ho
  have h1 := primaryStep_eq s.translations path lang
  rw [hck] at h1
  simp only [Bool.false_eq_true, if_false] at h1
  have h3 := fallbackStep_eq s.translations path lang
  rw [hcke] at h3
  simp only [Bool.and_false, Bool.false_eq_true, if_false] at h3
  rcases availLoop_stuck path lang s.translations s.locales ho hn with h2 | h2
  · left
    unfold getRun
    simp only [h1, exceptStep_ok, h2, exceptStep_error]
  · right
    unfold getRun
    simp only [h1, exceptStep_ok, h2, h3]
    rfl

theorem getRun_preserve {T : Type} (s : I18n) (conv : Json → Option T) (path lang : String)
    (d : T) (hl : s.locales = itemKeys s.translations) :
    (∀ r, getRun s conv path lang d = .ok r → r.translations = s.translations) ∧
    (∀ tr, getRun s conv path lang d = .error tr → tr = s.translations) := by
  by_cases hv : s.translations.is_object = true ∨ s.translations.is_null = true
  · have hchar := getRun_char s conv path lang d ⟨hl, hv⟩
    constructor
    · intro r hr
      rw [hchar] at hr
      injection hr with h
      rw [← h]
    · intro tr htr
      rw [hchar] at htr
      exact absurd htr (by simp)
  · push_neg at hv
    have ho : s.translations.is_object = false := by simpa using hv.1
    have hn : s.translations.is_null = false := by simpa using hv.2
    rcases getRun_stuck s conv path lang d ho hn with h | h
    · constructor
      · intro r hr
        rw [h] at hr
        exact absurd hr (by simp)
      · intro tr htr
        rw [h] at htr
        injection htr with he
        exact he.symm
    · constructor
      · intro r hr
        rw [h] at hr
        injection hr with he
        rw [← he]
      · intro tr htr
        rw [h] at htr
        exact absurd htr (by simp)

theorem walkSegs_eq_specWalk (segs : List String) (t : Json) :
    walkSegs t segs = specWalk t segs := by
  induction segs generalizing t with
  | nil => rfl
  | cons seg rest ih =>
    cases t with
    | obj fs =>
      rcases hf : lookupField fs seg with _ | child
      · simp [walkSegs, specWalk, containsKey, Json.is_object, hf]
      · simp [walkSegs, specWalk, containsKey, Json.is_object, atKey, hf, ih]
    | null => simp [walkSegs, specWalk, Json.is_object, containsKey]
    | bool b => simp [walkSegs, specWalk, Json.is_object, containsKey]
    | num n => simp [walkSegs, specWalk, Json.is_object, containsKey]
    | str st => simp [walkSegs, specWalk, Json.is_object, containsKey]
    | arr es => simp [walkSegs, specWalk, Json.is_object, containsKey]

theorem fromJson_ok_iff (j : Json) (s : I18n) :
    fromJson j = .ok s ↔ (j.is_object = true ∧ j.emptyVal = false ∧ s = ⟨j, itemKeys j⟩) := by
  unfold fromJson
  by_cases ho : j.is_object = true
  · by_cases he : j.emptyVal = true
    · simp [ho, he]
    · have hef : j.emptyVal = false := by simpa using he
      simp [ho, hef, eq_comm]
  · have hof : j.is_object = false := by simpa using ho
    simp [hof]

theorem fromFile_never_ok (fp : String) (o : Bool) (c : String) (s : I18n)
    (h : fromFile fp o c = .ok s) : False := by
  unfold fromFile at h
  cases o with
  | false => simp at h
  | true => by_cases hc : c = "" <;> simp [hc] at h

theorem constructed_locales (s : I18n) (h : Constructed s) :
    s.locales = itemKeys s.translations := by
  cases h with
  | ofDefault => rfl
  | ofJson j s hj =>
    have hs := ((fromJson_ok_iff j s).mp hj).2.2
    rw [hs]
  | ofFile fp o c s hf => exact (fromFile_never_ok fp o c s hf).elim

/-- C1: for every valid store, path, locale, conversion to any type T
and caller default, get returns without an escaping exception exactly
the value of the selection chain stated by the spec: the node resolved
in the requested locale's tree if that resolution succeeded and is
non-null, otherwise the node resolved in the "en" tree (consulted only
when the locale is not "en" and "en" is a top-level key) if that
resolved and is non-null, converted to T, and the caller default
otherwise. -/
theorem c1_get_selection_chain {T : Type} (s : I18n) (conv : Json → Option T)
    (path lang : String) (d : T) (hv : ValidStore s) :
    (getRun s conv path lang d).map GetOutcome.value =
      .ok (getSpecValue s conv path lang d) := by
  rw [getRun_char s conv path lang d hv]
  rfl

/-- C1 witness: the selection chain on the repository's test document,
requesting the "id" locale. -/
theorem c1_get_selection_chain_inst :
    (getRun demoStore convString "greeting" "id" "d").map GetOutcome.value =
      .ok (getSpecValue demoStore convString "greeting" "id" "d") :=
  c1_get_selection_chain demoStore convString "greeting" "id" "d" (by decide)

/-- C2: resolvePath splits the path on '.' with the getline convention
and walks the segments exactly as the spec states: at each step a
non-mapping node or a missing segment key yields not-found (none, the
nullptr result, distinct by construction from resolving to the null
value some Json.null); otherwise the node reached after all segments is
returned. -/
theorem c2_resolvePath_walk (tree : Json) (path : String) :
    resolvePath tree path = specWalk tree (cppSegments path) :=
  walkSegs_eq_specWalk (cppSegments path) tree

/-- C3: code bug in the file constructor. The size probe seeks the
stream to its end and nothing rewinds it before parse, so the parser
reads an exhausted stream and construction fails with ParseError for
every openable nonempty file; here a file holding the repository's own
example document fails, while in-memory construction accepts the very
same document, so construction from a file never reaches the point of
behaving like in-memory construction on parsed content. -/
theorem c3_file_construction_broken :
    fromFile "translations.json" true exampleFileContent =
      .error (.parseError "Invalid JSON in file: translations.json") ∧
    fromJson demoDoc = .ok demoStore := by
  constructor
  · simp [fromFile, exampleFileContent]
  · rfl

/-- C4: in-memory construction fails, always with InvalidDocument, if
and only if the value is not an object or is empty; on success the
store holds the document and records as locales exactly its top-level
keys in the order encountered while iterating the stored map. -/
theorem c4_fromJson_validation (j : Json) :
    ((∃ s, fromJson j = .ok s) ↔ (j.is_object = true ∧ j.emptyVal = false)) ∧
    (∀ e, fromJson j = .error e → ∃ m, e = ConstructError.invalidDocument m) ∧
    (∀ s, fromJson j = .ok s → s.translations = j ∧ s.locales = itemKeys j) := by
  refine ⟨⟨?_, ?_⟩, ?_, ?_⟩
  · rintro ⟨s, hs⟩
    have h := (fromJson_ok_iff j s).mp hs
    exact ⟨h.1, h.2.1⟩
  · rintro ⟨ho, he⟩
    exact ⟨⟨j, itemKeys j⟩, (fromJson_ok_iff j _).mpr ⟨ho, he, rfl⟩⟩
  · intro e he
    unfold fromJson at he
    by_cases ho : j.is_object = true
    · by_cases hem : j.emptyVal = true
      · simp [ho, hem] at he
        exact ⟨"JSON object is empty", he.symm⟩
      · have hef : j.emptyVal = false := by simpa using hem
        simp [ho, hef] at he
    · have hof : j.is_object = false := by simpa using ho
      simp [hof] at he
      exact ⟨"JSON must be an object", he.symm⟩
  · intro s hs
    have h := (fromJson_ok_iff j s).mp hs
    rw [h.2.2]
    exact ⟨rfl, rfl⟩

/-- C4 witness: constructing from the test document succeeds and
records its top-level keys in order. -/
theorem c4_fromJson_validation_inst :
    fromJson demoDoc = .ok demoStore ∧
    demoStore.translations = demoDoc ∧ demoStore.locales = itemKeys demoDoc :=
  ⟨rfl, (c4_fromJson_validation demoDoc).2.2 demoStore rfl⟩

/-- C5: t at type string replaces an empty caller default by the
sentinel "Content not found" before delegating to get, and therefore,
when the path resolves to nothing non-null in the requested locale and
nothing non-null in "en", t with no explicit default returns the
sentinel. -/
theorem c5_t_sentinel_default (s : I18n) (path lang d : String) :
    (tRunStr s path lang d =
      getRun s convString path lang (if d = "" then "Content not found" else d)) ∧
    (ValidStore s → resolvedNonNull (primaryNode s path lang) = false →
      resolvedNonNull (fallbackNode s path lang) = false →
      (tRunStr s path lang "").map GetOutcome.value = .ok "Content not found") := by
  refine ⟨rfl, fun hv hp hf => ?_⟩
  show (getRun s convString path lang
    (if ("" : String) = "" then "Content not found" else "")).map GetOutcome.value = _
  rw [if_pos rfl, getRun_char s convString path lang _ hv]
  simp [Except.map, getSpecValue, chainChoice, hp, hf]

/-- C5 witness: a path present in no locale, requested as t(path) with
locale "en" and no explicit default. -/
theorem c5_t_sentinel_default_inst :
    (tRunStr demoStore "missing.key" "en" "").map GetOutcome.value =
      .ok "Content not found" :=
  (c5_t_sentinel_default demoStore "missing.key" "en" "x").2 (by decide) rfl rfl

/-- C6: during every lookup on a valid store, the advisory warning is
written if and only if no locale other than the requested one has a
non-null value resolvable at the path, and the returned value is the
warning-independent selection-chain value. -/
theorem c6_warning_iff_no_other_locale {T : Type} (s : I18n) (conv : Json → Option T)
    (path lang : String) (d : T) (hv : ValidStore s) :
    ((getRun s conv path lang d).map GetOutcome.warned = .ok true ↔
      otherAny s path lang = false) ∧
    (getRun s conv path lang d).map GetOutcome.value =
      .ok (getSpecValue s conv path lang d) := by
  rw [getRun_char s conv path lang d hv]
  constructor
  · simp [Except.map]
  · rfl

/-- C6 witness: a path found nowhere, requested in "en": the warning
fires even though no locale at all has the value. -/
theorem c6_warning_iff_no_other_locale_inst :
    ((getRun demoStore convString "zz" "en" "d").map GetOutcome.warned = .ok true ↔
      otherAny demoStore "zz" "en" = false) ∧
    (getRun demoStore convString "zz" "en" "d").map GetOutcome.value =
      .ok (getSpecValue demoStore convString "zz" "en" "d") :=
  c6_warning_iff_no_other_locale demoStore convString "zz" "en" "d" (by decide)

/-- C7: whenever the selection chain picks a (necessarily non-null)
node and its conversion to the requested type fails, get returns the
caller default and no exception escapes. -/
theorem c7_conversion_failure_default {T : Type} (s : I18n) (conv : Json → Option T)
    (path lang : String) (d : T) (n : Json) (hv : ValidStore s)
    (hsel : chainChoice (primaryNode s path lang) (fallbackNode s path lang) = some n)
    (hconv : conv n = none) :
    (getRun s conv path lang d).map GetOutcome.value = .ok d := by
  rw [getRun_char s conv path lang d hv]
  simp [Except.map, getSpecValue, hsel, hconv]

/-- C7 witness: the string "Hello" selected for an integer-typed get:
the conversion throws and the default is returned. -/
theorem c7_conversion_failure_default_inst :
    (getRun demoStore convInt "greeting" "en" (0 : Int)).map GetOutcome.value =
      .ok (0 : Int) :=
  c7_conversion_failure_default demoStore convInt "greeting" "en" 0
    (Json.str "Hello") (by decide) rfl rfl

/-- C8: for every store built by one of the three constructors, no call
to get or t, with any conversion, path, locale or default, changes the
stored translations; the locale list is read but never written by get
or t, so the whole store is unchanged. Even on degenerate file-built
stores where a json exception escapes, the members are unchanged at
the throw point. -/
theorem c8_immutable_after_construction {T : Type} (s : I18n) (conv : Json → Option T)
    (path lang : String) (d : T) (ds : String) (hc : Constructed s) :
    (∀ r, getRun s conv path lang d = .ok r → r.translations = s.translations) ∧
    (∀ tr, getRun s conv path lang d = .error tr → tr = s.translations) ∧
    (∀ r, tRunStr s path lang ds = .ok r → r.translations = s.translations) ∧
    (∀ tr, tRunStr s path lang ds = .error tr → tr = s.translations) := by
  have hl := constructed_locales s hc
  obtain ⟨hg1, hg2⟩ := getRun_preserve s conv path lang d hl
  obtain ⟨ht1, ht2⟩ :=
    getRun_preserve s convString path lang (if ds = "" then "Content not found" else ds) hl
  exact ⟨hg1, hg2, ht1, ht2⟩

/-- C8 witness: the lookup of "greeting" in "id" leaves the test
document in place. -/
theorem c8_immutable_after_construction_inst :
    GetOutcome.translations ⟨"Halo", demoDoc, false⟩ = demoStore.translations :=
  (c8_immutable_after_construction demoStore convString "greeting" "id" "d" "x"
    (Constructed.ofJson demoDoc demoStore rfl)).1 ⟨"Halo", demoDoc, false⟩ rfl

/-- C9: resolvePath with the empty path performs no walking steps and
returns the tree itself, never not-found; consequently get with the
empty path on a known locale whose whole subtree is non-null hands
that entire subtree to the conversion to T. -/
theorem c9_empty_path_whole_tree :
    (∀ t : Json, resolvePath t "" = some t) ∧
    (∀ (T : Type) (s : I18n) (conv : Json → Option T) (lang : String) (d : T),
      ValidStore s → containsKey s.translations lang = true →
      (atKey s.translations lang).is_null = false →
      (getRun s conv "" lang d).map GetOutcome.value =
        .ok ((conv (atKey s.translations lang)).getD d)) := by
  constructor
  · intro t
    rfl
  · intro T s conv lang d hv hck hnn
    rw [getRun_char s conv "" lang d hv]
    have hp : primaryNode s "" lang = some (atKey s.translations lang) := by
      simp [primaryNode, hck, resolvePath, cppSegments, walkSegs]
    simp [Except.map, getSpecValue, hp, chainChoice, resolvedNonNull, hnn]

/-- C9 witness: the empty path on the "en" locale of the test document
selects the whole "en" subtree, whose string conversion fails, so the
default comes back. -/
theorem c9_empty_path_whole_tree_inst :
    (getRun demoStore convString "" "en" "z").map GetOutcome.value =
      .ok ((convString (atKey demoStore.translations "en")).getD "z") :=
  c9_empty_path_whole_tree.2 String demoStore convString "en" "z"
    (by decide) rfl rfl

/-- C10: on a default-constructed store every lookup returns the caller
default for every conversion, path and locale, and no exception
escapes; the advisory warning always fires since there are no other
locales. -/
theorem c10_default_store_returns_default {T : Type} (conv : Json → Option T)
    (path lang : String) (d : T) :
    getRun defaultI18n conv path lang d = .ok ⟨d, Json.null, true⟩ := by
  have hv : ValidStore defaultI18n := ⟨rfl, Or.inr rfl⟩
  rw [getRun_char defaultI18n conv path lang d hv]
  simp [getSpecValue, primaryNode, fallbackNode, chainChoice, resolvedNonNull,
        containsKey, otherAny, defaultI18n]
